import Mathlib

/-!
Verification of the cc-router Cloudflare worker (the multi-source variant in
the repository source). The definitions below are a shallow embedding,
translated clause by clause from the JavaScript source: the endpoint health
manager, the failover routing loop `tryEndpoints`, the OpenAI→Claude request
translator `convertOpenAIToClaude` with its `isValidValue`/`cleanObject`
helpers, the Claude→OpenAI SSE stream transcoder, and the relevant parts of
the top-level `fetch` handler. `Date.now()` is modelled by an explicit clock
oracle consumed one tick per call; the HTTP transport is modelled by an
oracle from an (endpoint index, source index) pair to a status-or-thrown
outcome; JSON values are modelled by an inductive `JValue`.
-/

/-- Configuration constant `TARGET_BASE_URLS` from the source: the two
redundant network sources (primary, backup). -/
def TARGET_BASE_URLS : List String :=
  ["https://code.newcli.com", "https://dm-fox.rjj.cc"]

/-- Configuration constant `ENDPOINTS` from the source: the endpoint path
prefixes ordered by ascending price. -/
def ENDPOINTS : List String :=
  ["/claude/droid", "/claude/aws", "/claude/ultra", "/claude/super", "/claude"]

/-- `HEALTH_CHECK_CONFIG.COOLDOWN_TIME` (seconds). -/
def COOLDOWN_TIME : Int := 60

/-- `HEALTH_CHECK_CONFIG.MAX_FAILURES`. -/
def MAX_FAILURES : Nat := 3

/-- Number of endpoints (`ENDPOINTS.length`). -/
def numEndpoints : Nat := ENDPOINTS.length

/-- Number of sources (`TARGET_BASE_URLS.length`). -/
def numSources : Nat := TARGET_BASE_URLS.length

/-- A health record as stored in `globalHealthCache`:
`{ failures, lastFailTime, inCooldown }`. Timestamps are milliseconds, as
returned by `Date.now()`, modelled as integers. -/
structure HealthRecord where
  failures : Nat
  lastFailTime : Int
  inCooldown : Bool
deriving Repr, DecidableEq

/-- The record `getHealth` returns when the cache has no entry for a key:
`{ failures: 0, lastFailTime: 0, inCooldown: false }`. -/
def zeroHealth : HealthRecord := ⟨0, 0, false⟩

/-- A health key `(endpointIndex, baseUrlIndex)`, as built by
`getHealthKey`. -/
abbrev HealthKey := Nat × Nat

/-- The global health cache, modelled as an association list where the most
recent `set` for a key shadows older entries (so lookup takes the first
match, matching `Map.get`/`Map.set`). -/
abbrev Store := List (HealthKey × HealthRecord)

/-- `EndpointHealthManager.getHealth`: cache lookup with the zero record as
default. -/
def getHealth (s : Store) (i j : Nat) : HealthRecord :=
  match s.find? (fun kv => kv.1 = (i, j)) with
  | some kv => kv.2
  | none => zeroHealth

/-- `EndpointHealthManager.saveHealth`: `Map.set`, modelled by shadowing
prepend. -/
def saveHealth (s : Store) (i j : Nat) (h : HealthRecord) : Store :=
  ((i, j), h) :: s

/-- The pure availability check performed by
`EndpointHealthManager.isAvailable` on a record at time `now`: available
unless in cooldown; in cooldown, available iff
`now - lastFailTime >= COOLDOWN_TIME * 1000`. -/
def isAvailable (h : HealthRecord) (now : Int) : Bool :=
  if h.inCooldown then decide (COOLDOWN_TIME * 1000 ≤ now - h.lastFailTime)
  else true

/-- The pure record update performed by
`EndpointHealthManager.recordFailure` at time `now`: increment `failures`,
refresh `lastFailTime`, and set `inCooldown` once `failures` reaches
`MAX_FAILURES` (leaving it as-is below the threshold). -/
def recordFailure (h : HealthRecord) (now : Int) : HealthRecord :=
  let failures := h.failures + 1
  { failures := failures
    lastFailTime := now
    inCooldown := if MAX_FAILURES ≤ failures then true else h.inCooldown }

/-- The pure record update performed by
`EndpointHealthManager.recordSuccess`: reset to the zero record if there was
any failure history or a cooldown, otherwise leave the record alone (the
source skips the cache write in that case, which reads back as the same
record). -/
def recordSuccess (h : HealthRecord) : HealthRecord :=
  if 0 < h.failures ∨ h.inCooldown = true then zeroHealth else h

/-- A clock oracle: the value `Date.now()` returns at its `n`-th call. -/
abbrev Clock := Nat → Int

/-- Mutable worker state threaded through the routing code: the global
health cache plus the number of `Date.now()` calls made so far. -/
structure St where
  store : Store
  tick : Nat

/-- One `Date.now()` call: read the clock oracle and advance the tick. -/
def dateNow (times : Clock) (s : St) : Int × St :=
  (times s.tick, ⟨s.store, s.tick + 1⟩)

/-- `EndpointHealthManager.isAvailable(endpointIndex, baseUrlIndex)`:
read the record, call `Date.now()`, and apply the pure check. No store
write occurs. -/
def isAvailableS (times : Clock) (i j : Nat) (s : St) : Bool × St :=
  let h := getHealth s.store i j
  let (now, s') := dateNow times s
  (isAvailable h now, s')

/-- `EndpointHealthManager.recordFailure(endpointIndex, baseUrlIndex)`:
read the record, call `Date.now()`, apply the pure failure update, and
save. -/
def recordFailureS (times : Clock) (i j : Nat) (s : St) : St :=
  let h := getHealth s.store i j
  let (now, s') := dateNow times s
  ⟨saveHealth s'.store i j (recordFailure h now), s'.tick⟩

/-- `EndpointHealthManager.recordSuccess(endpointIndex, baseUrlIndex)`:
read the record and reset it iff it has failure history or a cooldown. -/
def recordSuccessS (i j : Nat) (s : St) : St :=
  let h := getHealth s.store i j
  if 0 < h.failures || h.inCooldown then
    ⟨saveHealth s.store i j zeroHealth, s.tick⟩
  else s

/-- One operation applied to a health record by the manager during routing:
a recorded failure at some time, or a recorded success. -/
inductive HealthOp where
  | failAt (t : Int)
  | success
deriving Repr

/-- Apply one health operation to a record. -/
def applyHealthOp (h : HealthRecord) : HealthOp → HealthRecord
  | .failAt t => recordFailure h t
  | .success => recordSuccess h

/-- The state invariant of C10: zero failures exactly when the stored
failure timestamp is zero, and the cooldown flag implies the failure count
reached the threshold. -/
def HealthInv (h : HealthRecord) : Prop :=
  (h.failures = 0 ↔ h.lastFailTime = 0) ∧
  (h.inCooldown = true → MAX_FAILURES ≤ h.failures)

/-- The outcome of one call of the transport primitive (`proxyRequest` +
`fetch`): a response with a status code, or a thrown network error. -/
inductive TransportResult where
  | resp (status : Nat)
  | thrown
deriving Repr, DecidableEq

/-- A transport oracle: the outcome of proxying the request to endpoint `i`
through source `j`. Within one inbound request each pair is attempted at
most once, so a function of the pair is a faithful model. -/
abbrev Transport := Nat → Nat → TransportResult

/-- Whether a transport outcome counts as a failure in `tryEndpoints`
(a thrown error, or a status that is not `< 400`). -/
def transportFails (transport : Transport) (i j : Nat) : Bool :=
  match transport i j with
  | .resp status => decide (400 ≤ status)
  | .thrown => true

/-- The inner availability probe of the scan loops in `tryEndpoints`: walk
the source indices in order and stop at the first available one
(`hasAvailableSource` with its `break`). -/
def hasAvailableSourceAux (times : Clock) (i : Nat) (js : List Nat) (s : St) :
    Bool × St :=
  match js with
  | [] => (false, s)
  | j :: rest =>
    let (b, s') := isAvailableS times i j s
    if b then (true, s') else hasAvailableSourceAux times i rest s'

/-- Probe all sources of endpoint `i` (`for baseUrlIndex in 0..numSources`). -/
def hasAvailableSource (times : Clock) (i : Nat) (s : St) : Bool × St :=
  hasAvailableSourceAux times i (List.range numSources) s

/-- One availability-filtered scan pass of `tryEndpoints`: walk the given
index order, skip already-tried indices, and select the first index with at
least one available source. -/
def scanAvailable (times : Clock) (tried : List Nat) (idxs : List Nat)
    (s : St) : Option Nat × St :=
  match idxs with
  | [] => (none, s)
  | i :: rest =>
    if tried.contains i then scanAvailable times tried rest s
    else
      let (b, s') := hasAvailableSource times i s
      if b then (some i, s') else scanAvailable times tried rest s'

/-- The forced scan pass of `tryEndpoints` (used when no endpoint looks
available): the first untried index in the given order, ignoring health. -/
def scanAny (tried : List Nat) (idxs : List Nat) : Option Nat :=
  idxs.find? (fun i => !tried.contains i)

/-- The index order `[startIndex, numEndpoints)` walked first by each scan. -/
def idxsFrom (startIndex : Nat) : List Nat :=
  List.range' startIndex (numEndpoints - startIndex)

/-- The index order `[0, startIndex)` walked second by each scan. -/
def idxsBefore (startIndex : Nat) : List Nat :=
  List.range startIndex

/-- The endpoint-selection step of one outer `tryEndpoints` iteration:
availability-filtered scan of `[startIndex, N)`, then (when `startIndex > 0`)
of `[0, startIndex)`, then the forced scans of the same two ranges. -/
def pickIndex (times : Clock) (startIndex : Nat) (tried : List Nat) (s : St) :
    Option Nat × St :=
  let (c1, s1) := scanAvailable times tried (idxsFrom startIndex) s
  match c1 with
  | some i => (some i, s1)
  | none =>
    let (c2, s2) :=
      if 0 < startIndex then scanAvailable times tried (idxsBefore startIndex) s1
      else (none, s1)
    match c2 with
    | some i => (some i, s2)
    | none =>
      match scanAny tried (idxsFrom startIndex) with
      | some i => (some i, s2)
      | none =>
        ((if 0 < startIndex then scanAny tried (idxsBefore startIndex) else none), s2)

/-- A health-record operation performed by the router, for tracing which
`recordSuccess`/`recordFailure` calls a run makes. -/
inductive HOp where
  | succ (i j : Nat)
  | fail (i j : Nat)
deriving Repr, DecidableEq

/-- The per-endpoint source loop of `tryEndpoints`: for each source in
order, proxy the request; on status `< 400` record success and return the
status and source index; on any other status or a thrown error record
failure and continue. Also returns the trace of attempts made and of health
operations performed. -/
def trySources (times : Clock) (transport : Transport) (i : Nat)
    (js : List Nat) (s : St) :
    Option (Nat × Nat) × List (Nat × Nat) × List HOp × St :=
  match js with
  | [] => (none, [], [], s)
  | j :: rest =>
    match transport i j with
    | .resp status =>
      if status < 400 then
        (some (status, j), [(i, j)], [.succ i j], recordSuccessS i j s)
      else
        let s' := recordFailureS times i j s
        let (r, as, os, s'') := trySources times transport i rest s'
        (r, (i, j) :: as, .fail i j :: os, s'')
    | .thrown =>
      let s' := recordFailureS times i j s
      let (r, as, os, s'') := trySources times transport i rest s'
      (r, (i, j) :: as, .fail i j :: os, s'')

/-- The overall result of `tryEndpoints`: a successful response's status
with the endpoint and source that produced it, or total failure. -/
inductive RouterResult where
  | ok (status endpointIndex baseUrlIndex : Nat)
  | allFailed
deriving Repr, DecidableEq

/-- The instrumented outcome of a `tryEndpoints` run: the result, the trace
of outer-loop iterations (each chosen endpoint index with the attempts made
for it), the trace of health operations, and the final state. -/
structure LoopOut where
  result : RouterResult
  outer : List (Nat × List (Nat × Nat))
  ops : List HOp
  final : St

/-- The outer loop of `tryEndpoints` (`for attempt in 0..ENDPOINTS.length`):
pick an endpoint, mark it tried, try all its sources, return on success,
otherwise move on; stop when no untried endpoint remains. -/
def tryLoop (times : Clock) (transport : Transport) (startIndex : Nat)
    (fuel : Nat) (tried : List Nat) (s : St) : LoopOut :=
  match fuel with
  | 0 => ⟨.allFailed, [], [], s⟩
  | fuel + 1 =>
    match pickIndex times startIndex tried s with
    | (none, s') => ⟨.allFailed, [], [], s'⟩
    | (some i, s') =>
      let (r, as, os, s'') := trySources times transport i (List.range numSources) s'
      match r with
      | some (status, j) => ⟨.ok status i j, [(i, as)], os, s''⟩
      | none =>
        let rest := tryLoop times transport startIndex fuel (tried ++ [i]) s''
        ⟨rest.result, (i, as) :: rest.outer, os ++ rest.ops, rest.final⟩

/-- The `startIndex` computation of `tryEndpoints`: the position of the
preferred endpoint in `ENDPOINTS` (`indexOf`), or `0` when none is given or
it is not found (`indexOf` returning `-1`). -/
def computeStartIndex (preferredEndpoint : Option String) : Nat :=
  match preferredEndpoint with
  | none => 0
  | some p =>
    match ENDPOINTS.findIdx? (fun e => e = p) with
    | some k => k
    | none => 0

/-- `tryEndpoints(request, manager, apiPath, preferredEndpoint)`: run the
outer loop for up to `ENDPOINTS.length` iterations starting from an empty
tried set. -/
def tryEndpoints (times : Clock) (transport : Transport)
    (preferredEndpoint : Option String) (s : St) : LoopOut :=
  tryLoop times transport (computeStartIndex preferredEndpoint)
    ENDPOINTS.length [] s

/-- The flat sequence of transport attempts of a run, in order. -/
def flatAttempts (o : LoopOut) : List (Nat × Nat) :=
  o.outer.flatMap (fun p => p.2)

/-- The endpoint indices chosen by the outer loop, in order. -/
def chosenEndpoints (o : LoopOut) : List Nat :=
  o.outer.map (fun p => p.1)

/-- The endpoint indices not yet tried, in ascending order. -/
def untriedOf (tried : List Nat) : List Nat :=
  (List.range numEndpoints).filter (fun x => !tried.contains x)

/-- The attempts made for one endpoint during the total-failure scenario:
one per source, in order. -/
def sourcePairs (i : Nat) : List (Nat × Nat) :=
  (List.range numSources).map (fun j => (i, j))

/-- All `(endpoint, source)` pairs in scan order. -/
def allPairs : List (Nat × Nat) :=
  (List.range numEndpoints).flatMap sourcePairs

/-- A response body as constructed by the `fetch` handler: a string built by
the worker itself, the invalid-request JSON envelope (whose message embeds
the dynamic conversion error text), or a pass-through of the upstream
response body (possibly format-converted). -/
inductive ResponseBody where
  | text (s : String)
  | invalidRequest
  | upstream
deriving Repr, DecidableEq

/-- A gateway response: status code plus body. -/
structure GatewayResponse where
  status : Nat
  body : ResponseBody
deriving Repr, DecidableEq

/-- The exhaustion-failure body for the OpenAI dialect:
`JSON.stringify({error:{message:'All endpoints failed',type:'api_error'}})`. -/
def allEndpointsFailedBodyOpenAI : String :=
  "\x7b\"error\":\x7b\"message\":\"All endpoints failed\",\"type\":\"api_error\"\x7d\x7d"

/-- The response the `fetch` handler builds from a routing result: the fixed
503 exhaustion response when routing failed (body shaped by dialect), or the
upstream response with its status on success. -/
def routeResponse (isOpenAI : Bool) (r : RouterResult) : GatewayResponse :=
  match r with
  | .allFailed =>
    ⟨503, .text (if isOpenAI then allEndpointsFailedBodyOpenAI
      else "All endpoints failed")⟩
  | .ok status _ _ => ⟨status, .upstream⟩

/-- A constant clock used for concrete witness runs. -/
def constClock : Clock := fun _ => 0

/-- A transport that throws on every attempt. -/
def failAllTransport : Transport := fun _ _ => .thrown

/-- The fresh worker state: empty health cache, no clock ticks consumed. -/
def emptySt : St := ⟨[], 0⟩

/-- A transport where endpoint 0 fails on the primary source and succeeds
with 200 on the backup source. -/
def backupOkTransport : Transport :=
  fun i j => if i = 0 && j = 1 then .resp 200 else .resp 500

/-- A JSON value, as produced by `request.json()`. Numbers are modelled as
integers (every numeric field the translator inspects is used opaquely, so
the carrier does not matter). JavaScript `undefined` is modelled by absence:
an `Option` at every property-access site. -/
inductive JValue where
  | null
  | bool (b : Bool)
  | num (n : Int)
  | str (s : String)
  | arr (elems : List JValue)
  | obj (fields : List (String × JValue))

/-- An ordered JSON object, as JavaScript preserves property insertion
order. -/
abbrev JObj := List (String × JValue)

/-- Property read on an object: the first binding of the key, or absent. -/
def jGet (o : JObj) (k : String) : Option JValue :=
  (o.find? (fun kv => kv.1 = k)).map (fun kv => kv.2)

/-- JavaScript property access `v.k`: throws a `TypeError` on `null`,
returns the field (or `undefined`, i.e. `none`) on objects, and `undefined`
on other values (named properties of primitives and arrays). -/
def jDot (v : JValue) (k : String) : Except Unit (Option JValue) :=
  match v with
  | .null => .error ()
  | .obj fs => .ok (jGet fs k)
  | _ => .ok none

/-- JavaScript property write `o.k = v`: update in place if the key exists,
else append, preserving insertion order. -/
def jSet (o : JObj) (k : String) (v : JValue) : JObj :=
  if o.any (fun kv => kv.1 = k) then
    o.map (fun kv => if kv.1 = k then (k, v) else kv)
  else o ++ [(k, v)]

/-- `isValidValue`: rejects `undefined` (absence, handled at call sites via
`isValidOpt`), `null`, the placeholder strings `"[undefined]"` and
`"undefined"`, empty arrays and empty objects. -/
def isValidValue : JValue → Bool
  | .null => false
  | .str s => if s = "[undefined]" || s = "undefined" then false else true
  | .arr elems => decide (0 < elems.length)
  | .obj fields => decide (0 < fields.length)
  | _ => true

/-- `isValidValue` applied to a possibly-absent value (absence is
`undefined`, which is invalid). -/
def isValidOpt : Option JValue → Bool
  | none => false
  | some v => isValidValue v

/-- `cleanObject` on the assembled request object: keep only fields whose
value passes `isValidValue` (the source builds a fresh object from
`Object.entries`, preserving order). -/
def cleanObject (o : JObj) : JObj :=
  o.filter (fun kv => isValidValue kv.2)

/-- The default model id used when the inbound `model` field is invalid. -/
def defaultModel : String := "claude-3-5-sonnet-20241022"

/-- Append one converted chat message onto the `messages` array field of the
request being assembled (`claudeRequest.messages.push(...)`). -/
def pushMessage (acc : JObj) (role : String) (content : JValue) : JObj :=
  match jGet acc "messages" with
  | some (.arr xs) =>
    jSet acc "messages"
      (.arr (xs ++ [.obj [("role", .str role), ("content", content)]]))
  | _ => acc

/-- The message loop of `convertOpenAIToClaude`: hoist `system` content to
the top-level `system` field (last occurrence wins), copy `user`/`assistant`
messages with valid content in order, skip everything else. Reading `.role`
of a `null` entry throws. -/
def convertMessages (msgs : List JValue) (acc : JObj) : Except Unit JObj :=
  match msgs with
  | [] => .ok acc
  | msg :: rest => do
    let role ← jDot msg "role"
    match role with
    | some (.str r) =>
      if r = "system" then do
        let content ← jDot msg "content"
        match content with
        | some c =>
          if isValidValue c then convertMessages rest (jSet acc "system" c)
          else convertMessages rest acc
        | none => convertMessages rest acc
      else if r = "user" ∨ r = "assistant" then do
        let content ← jDot msg "content"
        match content with
        | some c =>
          if isValidValue c then convertMessages rest (pushMessage acc r c)
          else convertMessages rest acc
        | none => convertMessages rest acc
      else convertMessages rest acc
    | _ => convertMessages rest acc

/-- `convertOpenAIToClaude`: build the native request from the compat one.
`model` defaults when invalid, `max_tokens` defaults to 4096, messages are
converted by `convertMessages`, `temperature`/`top_p` pass through only when
valid numbers, `stream` is always set (defaulting to `false`), `stop` maps
to `stop_sequences`, and the result is swept by `cleanObject`. -/
def convertOpenAIToClaude (openaiRequest : JValue) : Except Unit JObj := do
  let model ← jDot openaiRequest "model"
  let modelV := match model with
    | some v => if isValidValue v then v else .str defaultModel
    | none => .str defaultModel
  let maxTokens ← jDot openaiRequest "max_tokens"
  let maxTokensV := match maxTokens with
    | some v => if isValidValue v then v else .num 4096
    | none => .num 4096
  let base : JObj :=
    [("model", modelV), ("max_tokens", maxTokensV), ("messages", .arr [])]
  let msgs ← jDot openaiRequest "messages"
  let withMsgs ← match msgs with
    | some (.arr ms) => convertMessages ms base
    | _ => .ok base
  let temp ← jDot openaiRequest "temperature"
  let acc1 := match temp with
    | some (.num n) =>
      if isValidValue (.num n) then jSet withMsgs "temperature" (.num n)
      else withMsgs
    | _ => withMsgs
  let topP ← jDot openaiRequest "top_p"
  let acc2 := match topP with
    | some (.num n) =>
      if isValidValue (.num n) then jSet acc1 "top_p" (.num n)
      else acc1
    | _ => acc1
  let stream ← jDot openaiRequest "stream"
  let acc3 := match stream with
    | some (.bool b) =>
      if isValidValue (.bool b) then jSet acc2 "stream" (.bool b)
      else jSet acc2 "stream" (.bool false)
    | _ => jSet acc2 "stream" (.bool false)
  let stop ← jDot openaiRequest "stop"
  let acc4 := match stop with
    | some v =>
      if isValidValue v then
        match v with
        | .arr xs =>
          let validStops := xs.filter isValidValue
          if 0 < validStops.length then
            jSet acc3 "stop_sequences" (.arr validStops)
          else acc3
        | .str s => jSet acc3 "stop_sequences" (.arr [.str s])
        | _ => acc3
      else acc3
    | none => acc3
  .ok (cleanObject acc4)

/-- The translation step of the `fetch` handler for a compat POST: take the
outcome of `request.json()` (a parsed body or a thrown parse error), read
`openaiBody.model` (which itself throws on a `null` body), then convert the
request. Any throw is caught by the handler's `catch`. -/
def translateRequest (parsedBody : Except Unit JValue) : Except Unit JObj := do
  let openaiBody ← parsedBody
  let _originalModel ← jDot openaiBody "model"
  convertOpenAIToClaude openaiBody

/-- The outcome of one `fetch` invocation, instrumented with the transport
attempts made and the final health store. -/
structure FetchOutcome where
  status : Nat
  body : ResponseBody
  attempts : List (Nat × Nat)
  finalStore : Store
deriving Repr

/-- The request-handling path of `fetch` (after the OPTIONS and catalog
short-circuits): for a compat (`isOpenAI`) POST, parse and convert the body,
answering 400 immediately on a throw without touching routing; otherwise
route via `tryEndpoints` and shape the response with `routeResponse`. -/
def handleFetch (times : Clock) (transport : Transport) (isOpenAI : Bool)
    (method : String) (preferred : Option String)
    (parsedBody : Except Unit JValue) (s : St) : FetchOutcome :=
  if isOpenAI && method == "POST" then
    match translateRequest parsedBody with
    | .error _ => ⟨400, .invalidRequest, [], s.store⟩
    | .ok _claudeBody =>
      let L := tryEndpoints times transport preferred s
      let resp := routeResponse isOpenAI L.result
      ⟨resp.status, resp.body, flatAttempts L, L.final.store⟩
  else
    let L := tryEndpoints times transport preferred s
    let resp := routeResponse isOpenAI L.result
    ⟨resp.status, resp.body, flatAttempts L, L.final.store⟩

/-- The `message` object carried by a native `message_start` event: the
fields the transcoder reads. Absent fields are `none`. -/
structure MessageInfo where
  id : Option String
  model : Option String
deriving Repr, DecidableEq

/-- A parsed native stream event, mirroring the shapes the transcoder's
`switch` inspects: for `content_block_delta` the optional `delta.type` and
`delta.text`; for `message_delta` the optional `delta.stop_reason`; for
`error` the optional `error.message` and `error.type`. `unknown` covers any
other `type` tag (logged and skipped). -/
inductive ClaudeEvent where
  | messageStart (message : MessageInfo)
  | contentBlockStart
  | contentBlockDelta (deltaType : Option String) (deltaText : Option String)
  | contentBlockStop
  | messageDelta (stopReason : Option String)
  | messageStop
  | ping
  | error (errMessage : Option String) (errType : Option String)
  | unknown
deriving Repr, DecidableEq

/-- One emitted OpenAI chat-completion chunk: the fields the transcoder
writes (`object` is always the constant `"chat.completion.chunk"` and is
omitted here; `delta` is represented by its optional `role` and `content`
members, absent members being dropped by `JSON.stringify`). -/
structure ChatChunk where
  id : String
  created : Int
  model : String
  deltaRole : Option String
  deltaContent : Option String
  finishReason : Option String
deriving Repr, DecidableEq

/-- One event emitted by the transcoder: a chunk serialized as
`"data: " + JSON + "\n\n"`, an error-shaped event, or the literal done
sentinel `"data: [DONE]\n\n"`. -/
inductive OutEvent where
  | chunk (c : ChatChunk)
  | errorEvent (message : String) (etype : String)
  | doneSentinel
deriving Repr, DecidableEq

/-- The literal bytes enqueued for the done sentinel. -/
def doneSentinelString : String := "data: [DONE]\n\n"

/-- JavaScript truthiness for an optional string (`undefined` and the empty
string are falsy), as used by the `||` defaulting chains. -/
def strTruthy : Option String → Option String
  | some s => if s = "" then none else some s
  | none => none

/-- The `finish_reason` mapping applied to a native stop reason:
`end_turn → stop`, `max_tokens → length`, anything else passes through. -/
def mapStopReason (r : String) : String :=
  if r = "end_turn" then "stop"
  else if r = "max_tokens" then "length"
  else r

/-- The `switch (claudeEvent.type)` dispatch of the transcoder, for one
parsed event processed at time `now` (the value `Date.now()` returns while
this line is handled). -/
def handleEvent (originalModel : Option String) (now : Int) :
    ClaudeEvent → List OutEvent
  | .messageStart m =>
    [.chunk
      { id := (strTruthy m.id).getD ("chatcmpl-" ++ toString now)
        created := now / 1000
        model := (strTruthy originalModel).getD
          ((strTruthy m.model).getD defaultModel)
        deltaRole := some "assistant"
        deltaContent := some ""
        finishReason := none }]
  | .contentBlockStart => []
  | .contentBlockDelta deltaType deltaText =>
    match deltaType with
    | some t =>
      if t = "text_delta" then
        [.chunk
          { id := "chatcmpl-" ++ toString now
            created := now / 1000
            model := (strTruthy originalModel).getD defaultModel
            deltaRole := none
            deltaContent := deltaText
            finishReason := none }]
      else []
    | none => []
  | .contentBlockStop => []
  | .messageDelta stopReason =>
    match strTruthy stopReason with
    | some r =>
      [.chunk
        { id := "chatcmpl-" ++ toString now
          created := now / 1000
          model := (strTruthy originalModel).getD defaultModel
          deltaRole := none
          deltaContent := none
          finishReason := some (mapStopReason r) }]
    | none => []
  | .messageStop => [.doneSentinel]
  | .ping => []
  | .error errMessage errType =>
    [.errorEvent ((strTruthy errMessage).getD "Unknown error")
      ((strTruthy errType).getD "api_error")]
  | .unknown => []

/-- JavaScript whitespace membership for the characters relevant to SSE
lines (`line.trim()`). -/
def jsWhitespace (c : Char) : Bool :=
  c = ' ' || c = '\t' || c = '\n' || c = '\r'

/-- `!line.trim()`: the line trims to the empty (falsy) string, i.e. every
character is whitespace. -/
def jsTrimEmpty (line : String) : Bool :=
  line.data.all jsWhitespace

/-- `line.startsWith(pre)` over the character sequence. -/
def jsStartsWith (line pre : String) : Bool :=
  pre.data.isPrefixOf line.data

/-- `line.slice(n)`: drop the first `n` characters. -/
def jsDrop (line : String) (n : Nat) : String :=
  ⟨line.data.drop n⟩

/-- The character walk behind `buffer.split('\n')`. -/
def splitLinesAux : List Char → List Char → List String
  | [], acc => [⟨acc.reverse⟩]
  | c :: cs, acc =>
    if c = '\n' then ⟨acc.reverse⟩ :: splitLinesAux cs []
    else splitLinesAux cs (c :: acc)

/-- `s.split('\n')`: the newline-separated segments of `s`, including a
trailing empty segment when `s` ends in a newline (`''.split` gives
`['']`). -/
def jsSplitNewline (s : String) : List String :=
  splitLinesAux s.data []

/-- Processing of one complete SSE line: skip blank and comment lines and
lines without the `data: ` marker; emit the sentinel verbatim for `[DONE]`;
otherwise parse the payload with the host JSON parser (`parse`, whose
`none` covers both a parse error and a payload the dispatch would crash on,
caught by the surrounding `try`) and dispatch on the event. -/
def processLine (parse : String → Option ClaudeEvent)
    (originalModel : Option String) (now : Int) (line : String) :
    List OutEvent :=
  if jsTrimEmpty line then []
  else if jsStartsWith line ":" then []
  else if jsStartsWith line "data: " then
    let data := jsDrop line 6
    if data = "[DONE]" then [.doneSentinel]
    else
      match parse data with
      | some e => handleEvent originalModel now e
      | none => []
  else []

/-- The per-chunk buffering of the transcoder: append the chunk to the
rolling buffer, split on newlines, hold back the trailing partial segment
(`lines.pop() || ''`), and process each complete line. -/
def splitBuffer (buffer chunk : String) : List String × String :=
  let lines := jsSplitNewline (buffer ++ chunk)
  (lines.dropLast, lines.getLastD "")

/-- The transcoder's read loop over a finite sequence of input chunks, each
arriving at its own time; the final partial buffer is dropped when the
input stream closes (matching the source, which closes the output without
flushing the buffer). -/
def processChunks (parse : String → Option ClaudeEvent)
    (originalModel : Option String) (chunks : List (Int × String))
    (buffer : String) : List OutEvent :=
  match chunks with
  | [] => []
  | (now, c) :: rest =>
    let (lines, buffer') := splitBuffer buffer c
    lines.flatMap (processLine parse originalModel now) ++
      processChunks parse originalModel rest buffer'

/-- `convertClaudeStreamToOpenAI`: run the read loop from an empty buffer. -/
def convertClaudeStreamToOpenAI (parse : String → Option ClaudeEvent)
    (originalModel : Option String) (chunks : List (Int × String)) :
    List OutEvent :=
  processChunks parse originalModel chunks ""

/-- The native `message_start` payload used in the stream scenarios. -/
def msgStartJson : String :=
  "\x7b\"type\":\"message_start\",\"message\":\x7b\"id\":\"msg_1\",\"model\":\"claude-3-5-sonnet-20241022\"\x7d\x7d"

/-- The native `content_block_delta` payload carrying the text `"Hi"`. -/
def hiDeltaJson : String :=
  "\x7b\"type\":\"content_block_delta\",\"delta\":\x7b\"type\":\"text_delta\",\"text\":\"Hi\"\x7d\x7d"

/-- The native `message_delta` payload carrying `stop_reason:"end_turn"`. -/
def stopReasonJson : String :=
  "\x7b\"type\":\"message_delta\",\"delta\":\x7b\"stop_reason\":\"end_turn\"\x7d\x7d"

/-- The native `message_stop` payload. -/
def msgStopJson : String :=
  "\x7b\"type\":\"message_stop\"\x7d"

/-- A second `content_block_delta` payload carrying the text `"X"`. -/
def xDeltaJson : String :=
  "\x7b\"type\":\"content_block_delta\",\"delta\":\x7b\"type\":\"text_delta\",\"text\":\"X\"\x7d\x7d"

/-- A concrete stand-in for the host JSON parser, defined on exactly the
payloads of the stream scenarios. -/
def demoParse : String → Option ClaudeEvent := fun s =>
  if s = msgStartJson then
    some (.messageStart ⟨some "msg_1", some "claude-3-5-sonnet-20241022"⟩)
  else if s = hiDeltaJson then
    some (.contentBlockDelta (some "text_delta") (some "Hi"))
  else if s = stopReasonJson then
    some (.messageDelta (some "end_turn"))
  else if s = msgStopJson then
    some .messageStop
  else if s = xDeltaJson then
    some (.contentBlockDelta (some "text_delta") (some "X"))
  else none

/-- The rolling buffer left after feeding a sequence of chunks. -/
def finalBuffer (chunks : List (Int × String)) (buffer : String) : String :=
  match chunks with
  | [] => buffer
  | (_, c) :: rest => finalBuffer rest (splitBuffer buffer c).2

/-- Failures accumulate additively under `recordFailure`. -/
theorem foldl_recordFailure_failures (ts : List Int) (h : HealthRecord) :
    (ts.foldl recordFailure h).failures = h.failures + ts.length := by
  induction ts generalizing h with
  | nil => simp
  | cons t ts ih =>
    simp only [List.foldl_cons, ih, List.length_cons]
    simp [recordFailure]
    omega

/-- After a nonempty run of failures, `lastFailTime` is the time of the most
recent failure. -/
theorem foldl_recordFailure_lastFailTime (ts : List Int) (h : HealthRecord)
    (hne : ts ≠ []) :
    (ts.foldl recordFailure h).lastFailTime = ts.getLastD 0 := by
  induction ts generalizing h with
  | nil => exact absurd rfl hne
  | cons t ts ih =>
    cases ts with
    | nil => simp [recordFailure]
    | cons t' ts' =>
      rw [List.foldl_cons, ih _ (by simp)]
      simp only [List.getLastD_cons]

/-- Once the accumulated failure count reaches the threshold during a
nonempty run of failures, the cooldown flag is set. -/
theorem foldl_recordFailure_inCooldown (ts : List Int) (h : HealthRecord)
    (hne : ts ≠ []) (hcnt : MAX_FAILURES ≤ h.failures + ts.length) :
    (ts.foldl recordFailure h).inCooldown = true := by
  induction ts generalizing h with
  | nil => exact absurd rfl hne
  | cons t ts ih =>
    rw [List.foldl_cons]
    cases ts with
    | nil =>
      simp only [List.length_cons, List.length_nil] at hcnt
      simp only [List.foldl_nil, recordFailure]
      have : MAX_FAILURES ≤ h.failures + 1 := by omega
      simp [this]
    | cons t' ts' =>
      apply ih _ (by simp)
      simp only [List.length_cons] at hcnt ⊢
      simp [recordFailure]
      omega

/-- C1. The availability check of `EndpointHealthManager.isAvailable` in all
its cases, its read-only nature, and the cooldown consequence of a run of
`recordFailure` calls: (1) a record not in cooldown is always available;
(2) a record in cooldown is available exactly when the cooldown window has
elapsed since its last failure; (3) the stateful check never writes the
store; (4) after at least `MAX_FAILURES` consecutive failures (from any
starting record), the record is unavailable exactly until the cooldown
window has elapsed since the most recent failure time. -/
theorem c1_isAvailable_cooldown :
    (∀ (h : HealthRecord) (now : Int), h.inCooldown = false →
      isAvailable h now = true) ∧
    (∀ (h : HealthRecord) (now : Int), h.inCooldown = true →
      (isAvailable h now = true ↔ COOLDOWN_TIME * 1000 ≤ now - h.lastFailTime)) ∧
    (∀ (times : Clock) (i j : Nat) (s : St),
      ((isAvailableS times i j s).2).store = s.store) ∧
    (∀ (h₀ : HealthRecord) (ts : List Int), MAX_FAILURES ≤ ts.length →
      ∀ now : Int,
        (isAvailable (ts.foldl recordFailure h₀) now = true ↔
          COOLDOWN_TIME * 1000 ≤ now - ts.getLastD 0)) := by
  refine ⟨?_, ?_, ?_, ?_⟩
  · intro h now hnc
    simp [isAvailable, hnc]
  · intro h now hc
    simp [isAvailable, hc]
  · intro times i j s
    rfl
  · intro h₀ ts hlen now
    have hne : ts ≠ [] := by
      intro he
      rw [he] at hlen
      simp [MAX_FAILURES] at hlen
    have hcool : (ts.foldl recordFailure h₀).inCooldown = true :=
      foldl_recordFailure_inCooldown ts h₀ hne (by omega)
    have hlast := foldl_recordFailure_lastFailTime ts h₀ hne
    rw [show isAvailable (ts.foldl recordFailure h₀) now =
        decide (COOLDOWN_TIME * 1000 ≤ now - (ts.foldl recordFailure h₀).lastFailTime) by
          simp [isAvailable, hcool], hlast]
    simp

/-- Witness for C1 at concrete inputs: a fresh record is available, and after
the three failures at times 10, 20, 30 the record is available at time 60030
but would not be at 60029. -/
theorem c1_isAvailable_cooldown_witness :
    isAvailable ⟨0, 0, false⟩ 5 = true ∧
    (isAvailable (List.foldl recordFailure ⟨0, 0, false⟩ [10, 20, 30]) 60030 = true ↔
      COOLDOWN_TIME * 1000 ≤ (60030 : Int) - [(10 : Int), 20, 30].getLastD 0) :=
  ⟨c1_isAvailable_cooldown.1 ⟨0, 0, false⟩ 5 rfl,
   c1_isAvailable_cooldown.2.2.2 ⟨0, 0, false⟩ [10, 20, 30] (by decide) 60030⟩

/-- A single health operation with a positive failure timestamp preserves
`HealthInv`. -/
theorem healthOp_preserves_inv (h : HealthRecord) (hinv : HealthInv h)
    (op : HealthOp) (hpos : ∀ t, op = .failAt t → 0 < t) :
    HealthInv (applyHealthOp h op) := by
  cases op with
  | failAt t =>
    have ht : 0 < t := hpos t rfl
    obtain ⟨hzero, hcool⟩ := hinv
    constructor
    · simp only [applyHealthOp, recordFailure]
      constructor
      · intro hf
        omega
      · intro hl
        omega
    · simp only [applyHealthOp, recordFailure]
      intro hic
      by_cases hth : MAX_FAILURES ≤ h.failures + 1
      · exact hth
      · simp only [if_neg hth] at hic
        have := hcool hic
        omega
  | success =>
    simp only [applyHealthOp, recordSuccess]
    by_cases hr : 0 < h.failures ∨ h.inCooldown = true
    · simp only [if_pos hr]
      exact ⟨by simp [zeroHealth], by simp [zeroHealth, MAX_FAILURES]⟩
    · simpa [if_neg hr] using hinv

/-- A whole run of health operations with positive failure timestamps
preserves `HealthInv`. -/
theorem healthInv_foldl (ops : List HealthOp) :
    ∀ (h : HealthRecord), HealthInv h →
      (∀ t, HealthOp.failAt t ∈ ops → 0 < t) →
      HealthInv (ops.foldl applyHealthOp h) := by
  induction ops with
  | nil =>
    intro h hinv _
    simpa using hinv
  | cons op rest ih =>
    intro h hinv hp
    rw [List.foldl_cons]
    exact ih _
      (healthOp_preserves_inv h hinv op
        (fun t het => hp t (het ▸ List.mem_cons_self _ _)))
      (fun t hmem => hp t (List.mem_cons_of_mem _ hmem))

/-- C10. Every health record reachable from the zero record by recorded
failures (at positive timestamps) and successes satisfies `HealthInv`, and
each single operation preserves the invariant. -/
theorem c10_health_invariant :
    (∀ (h : HealthRecord), HealthInv h → ∀ (op : HealthOp),
      (∀ t, op = .failAt t → 0 < t) → HealthInv (applyHealthOp h op)) ∧
    (∀ (ops : List HealthOp), (∀ t, HealthOp.failAt t ∈ ops → 0 < t) →
      HealthInv (ops.foldl applyHealthOp zeroHealth)) := by
  refine ⟨healthOp_preserves_inv, ?_⟩
  intro ops hpos
  exact healthInv_foldl ops zeroHealth
    ⟨by simp [zeroHealth], by simp [zeroHealth, MAX_FAILURES]⟩ hpos

/-- Witness for C10: the invariant after a concrete mixed history. -/
theorem c10_health_invariant_witness :
    HealthInv ([HealthOp.failAt 7, HealthOp.failAt 9, HealthOp.success,
      HealthOp.failAt 11].foldl applyHealthOp zeroHealth) :=
  c10_health_invariant.2 _ (by
    intro t hmem
    simp only [List.mem_cons, List.not_mem_nil, or_false] at hmem
    rcases hmem with h | h | h | h <;>
      first
      | (injection h with h; omega)
      | exact absurd h (by simp))

/-- The source probe only reads the store. -/
theorem hasAvailableSourceAux_store (times : Clock) (i : Nat) (js : List Nat) :
    ∀ s : St, ((hasAvailableSourceAux times i js s).2).store = s.store := by
  induction js with
  | nil => intro s; rfl
  | cons j rest ih =>
    intro s
    simp only [hasAvailableSourceAux]
    by_cases hb : (isAvailableS times i j s).1 = true
    · simp only [isAvailableS, dateNow] at hb ⊢
      simp [hb]
    · simp only [isAvailableS, dateNow] at hb ⊢
      simp only [Bool.not_eq_true] at hb
      simp [hb, ih]

/-- The availability-filtered scan only reads the store. -/
theorem scanAvailable_store (times : Clock) (tried : List Nat) (idxs : List Nat) :
    ∀ s : St, ((scanAvailable times tried idxs s).2).store = s.store := by
  induction idxs with
  | nil => intro s; rfl
  | cons a rest ih =>
    intro s
    simp only [scanAvailable]
    by_cases hm : a ∈ tried
    · simp [hm, ih]
    · rcases hH : hasAvailableSource times a s with ⟨b, sh⟩
      have hsh : sh.store = s.store := by
        have := hasAvailableSourceAux_store times a (List.range numSources) s
        rw [hasAvailableSource] at hH
        rw [hH] at this
        exact this
      cases b with
      | true => simp [hm, hH, hsh]
      | false => simp [hm, hH, ih, hsh]

/-- A hit of the availability-filtered scan is an untried index from the
scanned range. -/
theorem scanAvailable_some (times : Clock) (tried : List Nat) (idxs : List Nat) :
    ∀ (s : St) (i : Nat) (s' : St),
      scanAvailable times tried idxs s = (some i, s') →
        i ∈ idxs ∧ tried.contains i = false := by
  induction idxs with
  | nil => intro s i s' h; simp [scanAvailable] at h
  | cons a rest ih =>
    intro s i s' h
    simp only [scanAvailable] at h
    by_cases hm : a ∈ tried
    · rw [if_pos (by simpa using hm)] at h
      have := ih _ _ _ h
      exact ⟨List.mem_cons_of_mem _ this.1, this.2⟩
    · rcases hH : hasAvailableSource times a s with ⟨b, sh⟩
      rw [if_neg (by simpa using hm), hH] at h
      cases b with
      | true =>
        simp only [if_true] at h
        injection h with h1 _
        injection h1 with h1
        refine ⟨h1 ▸ List.mem_cons_self _ _, h1 ▸ ?_⟩
        simpa using hm
      | false =>
        simp only [Bool.false_eq_true, if_false] at h
        have := ih _ _ _ h
        exact ⟨List.mem_cons_of_mem _ this.1, this.2⟩

/-- A hit of the forced scan is an untried index from the scanned range. -/
theorem scanAny_some (tried : List Nat) (idxs : List Nat) (i : Nat)
    (h : scanAny tried idxs = some i) :
    i ∈ idxs ∧ tried.contains i = false := by
  refine ⟨List.mem_of_find?_eq_some h, ?_⟩
  have := List.find?_some h
  simpa using this

/-- When the forced scan misses, every index of the range is tried. -/
theorem scanAny_none (tried : List Nat) (idxs : List Nat)
    (h : scanAny tried idxs = none) :
    ∀ i ∈ idxs, tried.contains i = true := by
  intro i hi
  have := List.find?_eq_none.mp h i hi
  simpa using this

/-- Membership in the forward scan range. -/
theorem mem_idxsFrom {startIndex i : Nat} :
    i ∈ idxsFrom startIndex ↔ startIndex ≤ i ∧ i < numEndpoints := by
  rw [idxsFrom, List.mem_range'_1]
  omega

/-- Membership in the wrap-around scan range. -/
theorem mem_idxsBefore {startIndex i : Nat} :
    i ∈ idxsBefore startIndex ↔ i < startIndex := by
  rw [idxsBefore, List.mem_range]

/-- Any index selected by `pickIndex` is an untried endpoint index. -/
theorem pickIndex_some (times : Clock) (startIndex : Nat) (tried : List Nat)
    (s : St) (i : Nat) (s' : St) (hstart : startIndex ≤ numEndpoints)
    (h : pickIndex times startIndex tried s = (some i, s')) :
    i < numEndpoints ∧ tried.contains i = false := by
  rcases h1 : scanAvailable times tried (idxsFrom startIndex) s with ⟨c1, s1⟩
  unfold pickIndex at h
  rw [h1] at h
  dsimp only at h
  cases c1 with
  | some a =>
    dsimp only at h
    simp only [Prod.mk.injEq, Option.some.injEq] at h
    obtain ⟨rfl, rfl⟩ := h
    have := scanAvailable_some _ _ _ _ _ _ h1
    exact ⟨(mem_idxsFrom.mp this.1).2, this.2⟩
  | none =>
    dsimp only at h
    by_cases hs0 : 0 < startIndex
    · rcases h2 : scanAvailable times tried (idxsBefore startIndex) s1 with ⟨c2, s2⟩
      rw [if_pos hs0, h2] at h
      dsimp only at h
      cases c2 with
      | some a =>
        dsimp only at h
        simp only [Prod.mk.injEq, Option.some.injEq] at h
        obtain ⟨rfl, rfl⟩ := h
        have := scanAvailable_some _ _ _ _ _ _ h2
        have hlt := mem_idxsBefore.mp this.1
        exact ⟨by omega, this.2⟩
      | none =>
        dsimp only at h
        cases h3 : scanAny tried (idxsFrom startIndex) with
        | some a =>
          rw [h3] at h
          dsimp only at h
          simp only [Prod.mk.injEq, Option.some.injEq] at h
          obtain ⟨rfl, rfl⟩ := h
          have := scanAny_some _ _ _ h3
          exact ⟨(mem_idxsFrom.mp this.1).2, this.2⟩
        | none =>
          rw [h3] at h
          dsimp only at h
          rw [if_pos hs0] at h
          cases h4 : scanAny tried (idxsBefore startIndex) with
          | some a =>
            rw [h4] at h
            simp only [Prod.mk.injEq, Option.some.injEq] at h
            obtain ⟨rfl, rfl⟩ := h
            have := scanAny_some _ _ _ h4
            have hlt := mem_idxsBefore.mp this.1
            exact ⟨by omega, this.2⟩
          | none => rw [h4] at h; simp at h
    · rw [if_neg hs0] at h
      dsimp only at h
      cases h3 : scanAny tried (idxsFrom startIndex) with
      | some a =>
        rw [h3] at h
        dsimp only at h
        simp only [Prod.mk.injEq, Option.some.injEq] at h
        obtain ⟨rfl, rfl⟩ := h
        have := scanAny_some _ _ _ h3
        exact ⟨(mem_idxsFrom.mp this.1).2, this.2⟩
      | none =>
        rw [h3] at h
        dsimp only at h
        rw [if_neg hs0] at h
        simp at h

/-- When `pickIndex` selects nothing, every endpoint index is already
tried. -/
theorem pickIndex_none (times : Clock) (startIndex : Nat) (tried : List Nat)
    (s : St) (s' : St)
    (h : pickIndex times startIndex tried s = (none, s')) :
    ∀ i, i < numEndpoints → tried.contains i = true := by
  intro i hi
  rcases h1 : scanAvailable times tried (idxsFrom startIndex) s with ⟨c1, s1⟩
  unfold pickIndex at h
  rw [h1] at h
  dsimp only at h
  cases c1 with
  | some a => dsimp only at h; simp at h
  | none =>
    dsimp only at h
    have key : scanAny tried (idxsFrom startIndex) = none ∧
        (0 < startIndex → scanAny tried (idxsBefore startIndex) = none) := by
      by_cases hs0 : 0 < startIndex
      · rcases h2 : scanAvailable times tried (idxsBefore startIndex) s1 with ⟨c2, s2⟩
        rw [if_pos hs0, h2] at h
        dsimp only at h
        cases c2 with
        | some a => dsimp only at h; simp at h
        | none =>
          dsimp only at h
          cases h3 : scanAny tried (idxsFrom startIndex) with
          | some a => rw [h3] at h; dsimp only at h; simp at h
          | none =>
            rw [h3] at h
            dsimp only at h
            rw [if_pos hs0] at h
            cases h4 : scanAny tried (idxsBefore startIndex) with
            | some a => rw [h4] at h; simp at h
            | none => exact ⟨rfl, fun _ => rfl⟩
      · rw [if_neg hs0] at h
        dsimp only at h
        cases h3 : scanAny tried (idxsFrom startIndex) with
        | some a => rw [h3] at h; dsimp only at h; simp at h
        | none => exact ⟨rfl, fun hc => absurd hc hs0⟩
    by_cases hge : startIndex ≤ i
    · exact scanAny_none _ _ key.1 i (mem_idxsFrom.mpr ⟨hge, hi⟩)
    · have hlt : i < startIndex := by omega
      exact scanAny_none _ _ (key.2 (by omega)) i (mem_idxsBefore.mpr hlt)

/-- Every attempt recorded by the source loop targets the loop's endpoint. -/
theorem trySources_fst (times : Clock) (transport : Transport) (i : Nat) :
    ∀ (js : List Nat) (s : St),
      ∀ a ∈ (trySources times transport i js s).2.1, a.1 = i := by
  intro js
  induction js with
  | nil => intro s a ha; simp [trySources] at ha
  | cons j rest ih =>
    intro s a ha
    simp only [trySources] at ha
    cases htr : transport i j with
    | resp status =>
      rw [htr] at ha
      dsimp only at ha
      by_cases hlt : status < 400
      · simp only [if_pos hlt, List.mem_singleton] at ha
        simp [ha]
      · rw [if_neg hlt] at ha
        rcases List.mem_cons.mp ha with rfl | hmem
        · rfl
        · exact ih _ a hmem
    | thrown =>
      rw [htr] at ha
      dsimp only at ha
      rcases List.mem_cons.mp ha with rfl | hmem
      · rfl
      · exact ih _ a hmem

/-- When the source loop fails overall, it attempted every source in order,
recorded a failure for each, and each transport outcome was a failure. -/
theorem trySources_none (times : Clock) (transport : Transport) (i : Nat) :
    ∀ (js : List Nat) (s : St) (as : List (Nat × Nat)) (os : List HOp) (s' : St),
      trySources times transport i js s = (none, as, os, s') →
      as = js.map (fun j => (i, j)) ∧ os = js.map (fun j => HOp.fail i j) ∧
        ∀ j ∈ js, transportFails transport i j = true := by
  intro js
  induction js with
  | nil =>
    intro s as os s' h
    simp only [trySources, Prod.mk.injEq] at h
    exact ⟨h.2.1.symm, h.2.2.1.symm, by simp⟩
  | cons j rest ih =>
    intro s as os s' h
    simp only [trySources] at h
    cases htr : transport i j with
    | resp status =>
      rw [htr] at h
      dsimp only at h
      by_cases hlt : status < 400
      · rw [if_pos hlt] at h
        simp at h
      · rw [if_neg hlt] at h
        rcases hrec : trySources times transport i rest (recordFailureS times i j s)
          with ⟨r', as', os', s''⟩
        rw [hrec] at h
        dsimp only at h
        simp only [Prod.mk.injEq] at h
        obtain ⟨hr', has', hos', _⟩ := h
        obtain ⟨ha, hb, hc⟩ := ih _ _ _ _ (hr' ▸ hrec)
        refine ⟨by rw [← has', ha, List.map_cons], by rw [← hos', hb, List.map_cons], ?_⟩
        intro x hx
        rcases List.mem_cons.mp hx with rfl | hmem
        · simp only [transportFails, htr, decide_eq_true_eq]
          omega
        · exact hc x hmem
    | thrown =>
      rw [htr] at h
      dsimp only at h
      rcases hrec : trySources times transport i rest (recordFailureS times i j s)
        with ⟨r', as', os', s''⟩
      rw [hrec] at h
      dsimp only at h
      simp only [Prod.mk.injEq] at h
      obtain ⟨hr', has', hos', _⟩ := h
      obtain ⟨ha, hb, hc⟩ := ih _ _ _ _ (hr' ▸ hrec)
      refine ⟨by rw [← has', ha, List.map_cons], by rw [← hos', hb, List.map_cons], ?_⟩
      intro x hx
      rcases List.mem_cons.mp hx with rfl | hmem
      · simp [transportFails, htr]
      · exact hc x hmem

/-- When the source loop succeeds, the successful attempt is the last one,
its status is below 400, a success is recorded for exactly it, every earlier
attempt failed and was recorded as a failure. -/
theorem trySources_some (times : Clock) (transport : Transport) (i : Nat) :
    ∀ (js : List Nat) (s : St) (status j : Nat) (as : List (Nat × Nat))
      (os : List HOp) (s' : St),
      trySources times transport i js s = (some (status, j), as, os, s') →
      status < 400 ∧ transport i j = .resp status ∧
        as.getLast? = some (i, j) ∧
        os = as.dropLast.map (fun a => HOp.fail a.1 a.2) ++ [HOp.succ i j] ∧
        ∀ a ∈ as.dropLast, transportFails transport a.1 a.2 = true := by
  intro js
  induction js with
  | nil =>
    intro s status j as os s' h
    simp [trySources] at h
  | cons j0 rest ih =>
    intro s status j as os s' h
    simp only [trySources] at h
    cases htr : transport i j0 with
    | resp st0 =>
      rw [htr] at h
      dsimp only at h
      by_cases hlt : st0 < 400
      · rw [if_pos hlt] at h
        simp only [Prod.mk.injEq, Option.some.injEq] at h
        obtain ⟨⟨rfl, rfl⟩, rfl, rfl, _⟩ := h
        exact ⟨hlt, htr, by simp, by simp, by simp⟩
      · rw [if_neg hlt] at h
        rcases hrec : trySources times transport i rest (recordFailureS times i j0 s)
          with ⟨r', as', os', s''⟩
        rw [hrec] at h
        dsimp only at h
        simp only [Prod.mk.injEq] at h
        obtain ⟨hr', has', hos', _⟩ := h
        obtain ⟨h1, h2, h3, h4, h5⟩ := ih _ _ _ _ _ _ (hr' ▸ hrec)
        have hne : as' ≠ [] := by
          intro he
          rw [he] at h3
          simp at h3
        refine ⟨h1, h2, ?_, ?_, ?_⟩
        · rw [← has', List.getLast?_cons, h3]
          rfl
        · rw [← has', ← hos', List.dropLast_cons_of_ne_nil hne, List.map_cons, h4]
          simp
        · intro a ha
          rw [← has', List.dropLast_cons_of_ne_nil hne] at ha
          rcases List.mem_cons.mp ha with rfl | hmem
          · simp only [transportFails, htr, decide_eq_true_eq]
            omega
          · exact h5 a hmem
    | thrown =>
      rw [htr] at h
      dsimp only at h
      rcases hrec : trySources times transport i rest (recordFailureS times i j0 s)
        with ⟨r', as', os', s''⟩
      rw [hrec] at h
      dsimp only at h
      simp only [Prod.mk.injEq] at h
      obtain ⟨hr', has', hos', _⟩ := h
      obtain ⟨h1, h2, h3, h4, h5⟩ := ih _ _ _ _ _ _ (hr' ▸ hrec)
      have hne : as' ≠ [] := by
        intro he
        rw [he] at h3
        simp at h3
      refine ⟨h1, h2, ?_, ?_, ?_⟩
      · rw [← has', List.getLast?_cons, h3]
        rfl
      · rw [← has', ← hos', List.dropLast_cons_of_ne_nil hne, List.map_cons, h4]
        simp
      · intro a ha
        rw [← has', List.dropLast_cons_of_ne_nil hne] at ha
        rcases List.mem_cons.mp ha with rfl | hmem
        · simp [transportFails, htr]
        · exact h5 a hmem

/-- Filtering twice is filtering by the conjunction. -/
theorem filter_and_filter (l : List Nat) (p q : Nat → Bool) :
    (l.filter p).filter q = l.filter (fun a => p a && q a) := by
  induction l with
  | nil => rfl
  | cons a l ih =>
    by_cases hp : p a <;> by_cases hq : q a <;>
      simp [List.filter_cons, hp, hq, ih]

/-- The untried list has no duplicates. -/
theorem untriedOf_nodup (tried : List Nat) : (untriedOf tried).Nodup :=
  (List.nodup_range _).filter _

/-- Membership in the untried list. -/
theorem mem_untriedOf {tried : List Nat} {i : Nat} :
    i ∈ untriedOf tried ↔ i < numEndpoints ∧ tried.contains i = false := by
  simp [untriedOf, List.mem_filter, List.mem_range]

/-- Marking one more endpoint tried filters it out of the untried list. -/
theorem untriedOf_append (tried : List Nat) (i : Nat) :
    untriedOf (tried ++ [i]) = (untriedOf tried).filter (fun x => x != i) := by
  rw [untriedOf, untriedOf, filter_and_filter]
  apply List.filter_congr
  intro x _
  by_cases hx : x = i <;> by_cases hm : x ∈ tried <;> simp [hx, hm]

/-- Choosing an untried endpoint splits the untried list up to
permutation. -/
theorem untriedOf_perm (tried : List Nat) (i : Nat) (hi : i ∈ untriedOf tried) :
    (untriedOf tried).Perm (i :: untriedOf (tried ++ [i])) := by
  rw [untriedOf_append, ← (untriedOf_nodup tried).erase_eq_filter]
  exact List.perm_cons_erase hi

/-- Every attempt recorded by the source loop uses a source index from the
scanned source list. -/
theorem trySources_snd (times : Clock) (transport : Transport) (i : Nat) :
    ∀ (js : List Nat) (s : St),
      ∀ a ∈ (trySources times transport i js s).2.1, a.2 ∈ js := by
  intro js
  induction js with
  | nil => intro s a ha; simp [trySources] at ha
  | cons j rest ih =>
    intro s a ha
    simp only [trySources] at ha
    cases htr : transport i j with
    | resp status =>
      rw [htr] at ha
      dsimp only at ha
      by_cases hlt : status < 400
      · simp only [if_pos hlt, List.mem_singleton] at ha
        simp [ha]
      · rw [if_neg hlt] at ha
        rcases List.mem_cons.mp ha with rfl | hmem
        · simp
        · exact List.mem_cons_of_mem _ (ih _ a hmem)
    | thrown =>
      rw [htr] at ha
      dsimp only at ha
      rcases List.mem_cons.mp ha with rfl | hmem
      · simp
      · exact List.mem_cons_of_mem _ (ih _ a hmem)

/-- The computed start index never exceeds the endpoint count. -/
theorem computeStartIndex_le (p : Option String) :
    computeStartIndex p ≤ numEndpoints := by
  cases p with
  | none => exact Nat.zero_le _
  | some e =>
    simp only [computeStartIndex]
    cases h : ENDPOINTS.findIdx? (fun x => x = e) with
    | none => exact Nat.zero_le _
    | some k =>
      obtain ⟨hk, _, _⟩ := List.findIdx?_eq_some_iff_getElem.mp h
      exact Nat.le_of_lt hk

/-- In the total-failure scenario, the outer loop exhausts exactly the
untried endpoints: the result is `allFailed` and the attempt trace is, up to
permutation, one attempt per untried endpoint and source. -/
theorem tryLoop_allFail (times : Clock) (transport : Transport)
    (startIndex : Nat) (hstart : startIndex ≤ numEndpoints)
    (hfail : ∀ i j, i < numEndpoints → j < numSources →
      transportFails transport i j = true) :
    ∀ (fuel : Nat) (tried : List Nat) (s : St),
      (untriedOf tried).length ≤ fuel →
      (tryLoop times transport startIndex fuel tried s).result = .allFailed ∧
      (flatAttempts (tryLoop times transport startIndex fuel tried s)).Perm
        ((untriedOf tried).flatMap sourcePairs) := by
  intro fuel
  induction fuel with
  | zero =>
    intro tried s hlen
    have : untriedOf tried = [] := List.eq_nil_of_length_eq_zero (Nat.le_zero.mp hlen)
    rw [this]
    exact ⟨rfl, by simp [tryLoop, flatAttempts]⟩
  | succ fuel ih =>
    intro tried s hlen
    rcases hp : pickIndex times startIndex tried s with ⟨c, s'⟩
    cases c with
    | none =>
      have hempty : untriedOf tried = [] := by
        rw [untriedOf, List.filter_eq_nil_iff]
        intro x hx
        have := pickIndex_none _ _ _ _ _ hp x (List.mem_range.mp hx)
        simpa using this
      constructor
      · simp [tryLoop, hp]
      · rw [hempty]
        simp [tryLoop, hp, flatAttempts]
    | some i =>
      obtain ⟨hiN, hic⟩ := pickIndex_some _ _ _ _ _ _ hstart hp
      have hiu : i ∈ untriedOf tried := mem_untriedOf.mpr ⟨hiN, hic⟩
      rcases htS : trySources times transport i (List.range numSources) s'
        with ⟨r, as, os, s''⟩
      cases r with
      | some v =>
        exfalso
        obtain ⟨status, j⟩ := v
        obtain ⟨hst, htj, hlast, _, _⟩ := trySources_some _ _ _ _ _ _ _ _ _ _ htS
        have hjmem : (i, j) ∈ as := List.mem_of_mem_getLast? hlast
        have hjs : j ∈ List.range numSources := by
          have := trySources_snd times transport i (List.range numSources) s' (i, j)
          rw [htS] at this
          exact this hjmem
        have := hfail i j hiN (List.mem_range.mp hjs)
        rw [transportFails, htj] at this
        simp at this
        omega
      | none =>
        obtain ⟨has, hos, _⟩ := trySources_none _ _ _ _ _ _ _ _ htS
        have hperm := untriedOf_perm tried i hiu
        have hlen' : (untriedOf (tried ++ [i])).length ≤ fuel := by
          have := hperm.length_eq
          simp only [List.length_cons] at this
          omega
        obtain ⟨ihres, ihperm⟩ := ih (tried ++ [i]) s'' hlen'
        constructor
        · simp only [tryLoop, hp, htS]
          exact ihres
        · have e1 := ihperm.append_left as
          have e2 : as ++ (untriedOf (tried ++ [i])).flatMap sourcePairs =
              (i :: untriedOf (tried ++ [i])).flatMap sourcePairs := by
            rw [List.flatMap_cons, has]
            simp [sourcePairs]
          have e3 : ((i :: untriedOf (tried ++ [i])).flatMap sourcePairs).Perm
              ((untriedOf tried).flatMap sourcePairs) :=
            (hperm.flatMap_right _).symm
          simp only [tryLoop, hp, htS, flatAttempts, List.flatMap_cons] at ihperm ⊢
          exact ((e2 ▸ e1).trans e3)

/-- C2. When every `(endpoint, source)` transport attempt fails, the router
performs exactly `numEndpoints * numSources` attempts — each pair exactly
once — and the handler returns the fixed 503 exhaustion response. -/
theorem c2_exhaustion (times : Clock) (transport : Transport)
    (preferred : Option String) (s : St)
    (hfail : ∀ i j, i < numEndpoints → j < numSources →
      transportFails transport i j = true) :
    (tryEndpoints times transport preferred s).result = .allFailed ∧
    (flatAttempts (tryEndpoints times transport preferred s)).Perm allPairs ∧
    (flatAttempts (tryEndpoints times transport preferred s)).length =
      numEndpoints * numSources ∧
    (flatAttempts (tryEndpoints times transport preferred s)).Nodup ∧
    (∀ isOpenAI : Bool,
      routeResponse isOpenAI (tryEndpoints times transport preferred s).result =
        ⟨503, .text (if isOpenAI then allEndpointsFailedBodyOpenAI
          else "All endpoints failed")⟩) := by
  have huntried : untriedOf [] = List.range numEndpoints := by
    simp [untriedOf]
  have hlen : (untriedOf ([] : List Nat)).length ≤ ENDPOINTS.length := by
    rw [huntried]
    simp [numEndpoints]
  obtain ⟨hres, hperm⟩ := tryLoop_allFail times transport
    (computeStartIndex preferred) (computeStartIndex_le preferred) hfail
    ENDPOINTS.length [] s hlen
  have hperm' : (flatAttempts (tryEndpoints times transport preferred s)).Perm allPairs := by
    rw [tryEndpoints]
    rw [huntried] at hperm
    exact hperm
  refine ⟨hres, hperm', ?_, ?_, ?_⟩
  · rw [hperm'.length_eq]
    decide
  · exact hperm'.nodup_iff.mpr (by decide)
  · intro isOpenAI
    have hres' : (tryEndpoints times transport preferred s).result =
        RouterResult.allFailed := hres
    rw [hres']
    rfl

/-- Witness for C2: the concrete all-throwing run exhausts all ten pairs and
yields the 503 response. -/
theorem c2_exhaustion_witness :
    (tryEndpoints constClock failAllTransport none emptySt).result = .allFailed ∧
    (flatAttempts (tryEndpoints constClock failAllTransport none emptySt)).Perm allPairs ∧
    (flatAttempts (tryEndpoints constClock failAllTransport none emptySt)).length =
      numEndpoints * numSources ∧
    (flatAttempts (tryEndpoints constClock failAllTransport none emptySt)).Nodup ∧
    (∀ isOpenAI : Bool,
      routeResponse isOpenAI (tryEndpoints constClock failAllTransport none emptySt).result =
        ⟨503, .text (if isOpenAI then allEndpointsFailedBodyOpenAI
          else "All endpoints failed")⟩) :=
  c2_exhaustion constClock failAllTransport none emptySt
    (fun _ _ _ _ => rfl)

/-- The outer loop never picks an endpoint twice: the chosen-endpoint trace
is duplicate-free, avoids the initially tried set, and every attempt in an
iteration's group targets that iteration's endpoint. -/
theorem tryLoop_chosen (times : Clock) (transport : Transport)
    (startIndex : Nat) (hstart : startIndex ≤ numEndpoints) :
    ∀ (fuel : Nat) (tried : List Nat) (s : St),
      (chosenEndpoints (tryLoop times transport startIndex fuel tried s)).Nodup ∧
      (∀ x ∈ chosenEndpoints (tryLoop times transport startIndex fuel tried s),
        tried.contains x = false) ∧
      (∀ p ∈ (tryLoop times transport startIndex fuel tried s).outer,
        ∀ a ∈ p.2, a.1 = p.1) := by
  intro fuel
  induction fuel with
  | zero =>
    intro tried s
    exact ⟨List.nodup_nil, by simp [tryLoop, chosenEndpoints], by simp [tryLoop]⟩
  | succ fuel ih =>
    intro tried s
    rcases hp : pickIndex times startIndex tried s with ⟨c, s'⟩
    cases c with
    | none =>
      refine ⟨?_, ?_, ?_⟩ <;> simp [tryLoop, hp, chosenEndpoints]
    | some i =>
      obtain ⟨hiN, hic⟩ := pickIndex_some _ _ _ _ _ _ hstart hp
      rcases htS : trySources times transport i (List.range numSources) s'
        with ⟨r, as, os, s''⟩
      cases r with
      | some v =>
        obtain ⟨status, j⟩ := v
        refine ⟨?_, ?_, ?_⟩
        · simp [tryLoop, hp, htS, chosenEndpoints]
        · intro x hx
          simp only [tryLoop, hp, htS, chosenEndpoints, List.map_cons,
            List.map_nil, List.mem_singleton] at hx
          exact hx ▸ hic
        · intro p hpmem a ha
          simp only [tryLoop, hp, htS, List.mem_singleton] at hpmem
          subst hpmem
          have := trySources_fst times transport i (List.range numSources) s' a
          rw [htS] at this
          exact this ha
      | none =>
        obtain ⟨ihnd, ihfresh, ihgrp⟩ := ih (tried ++ [i]) s''
        have hfresh' : ∀ x ∈ chosenEndpoints
            (tryLoop times transport startIndex fuel (tried ++ [i]) s''),
            x ≠ i ∧ tried.contains x = false := by
          intro x hx
          have := ihfresh x hx
          constructor
          · intro he
            rw [he] at this
            simp at this
          · by_cases hm : x ∈ tried
            · exfalso
              have hc2 : (tried ++ [i]).contains x = true := by
                simp [List.mem_append, hm]
              rw [hc2] at this
              simp at this
            · simpa using hm
        refine ⟨?_, ?_, ?_⟩
        · simp only [tryLoop, hp, htS, chosenEndpoints, List.map_cons]
          rw [List.nodup_cons]
          exact ⟨fun hmem => (hfresh' i hmem).1 rfl, ihnd⟩
        · intro x hx
          simp only [tryLoop, hp, htS, chosenEndpoints, List.map_cons,
            List.mem_cons] at hx
          rcases hx with rfl | hx
          · exact hic
          · exact (hfresh' x hx).2
        · intro p hpmem a ha
          simp only [tryLoop, hp, htS, List.mem_cons] at hpmem
          rcases hpmem with rfl | hpmem
          · have := trySources_fst times transport i (List.range numSources) s' a
            rw [htS] at this
            exact this ha
          · exact ihgrp p hpmem a ha

/-- C3. Within one inbound request, the failover loop never selects the same
endpoint index twice: the sequence of chosen endpoint indices is
duplicate-free, and every attempt of an outer iteration carries that
iteration's endpoint index, so attempts from different outer iterations have
distinct endpoint indices. -/
theorem c3_no_repeat_endpoint (times : Clock) (transport : Transport)
    (preferred : Option String) (s : St) :
    (chosenEndpoints (tryEndpoints times transport preferred s)).Nodup ∧
    (∀ p ∈ (tryEndpoints times transport preferred s).outer,
      ∀ a ∈ p.2, a.1 = p.1) := by
  obtain ⟨h1, _, h3⟩ := tryLoop_chosen times transport
    (computeStartIndex preferred) (computeStartIndex_le preferred)
    ENDPOINTS.length [] s
  exact ⟨h1, h3⟩

/-- Under a fully available store, the source probe succeeds immediately and
leaves the store unchanged. -/
theorem hasAvailableSource_of_avail (times : Clock) (i : Nat) (s : St)
    (hall : ∀ j t, isAvailable (getHealth s.store i j) t = true) :
    (hasAvailableSource times i s).1 = true ∧
    (hasAvailableSource times i s).2.store = s.store := by
  rw [hasAvailableSource, show List.range numSources = [0, 1] from rfl]
  simp only [hasAvailableSourceAux, isAvailableS, dateNow]
  rw [hall 0 (times s.tick)]
  simp

/-- Under a fully available store, the availability-filtered scan picks the
first untried index of its range and leaves the store unchanged. -/
theorem scanAvailable_of_avail (times : Clock) (tried : List Nat)
    (idxs : List Nat) :
    ∀ s : St, (∀ i j t, isAvailable (getHealth s.store i j) t = true) →
      (scanAvailable times tried idxs s).1 =
        idxs.find? (fun i => !tried.contains i) ∧
      (scanAvailable times tried idxs s).2.store = s.store := by
  induction idxs with
  | nil => intro s _; exact ⟨rfl, rfl⟩
  | cons a rest ih =>
    intro s hall
    by_cases hm : a ∈ tried
    · have hct : tried.contains a = true := by simpa using hm
      rw [scanAvailable, if_pos hct, List.find?_cons,
        show (!tried.contains a) = false by simp [hm]]
      exact ih s hall
    · have hct : tried.contains a = false := by simpa using hm
      obtain ⟨hb, hst⟩ := hasAvailableSource_of_avail times a s (fun j t => hall a j t)
      rcases hH : hasAvailableSource times a s with ⟨b, sh⟩
      rw [hH] at hb hst
      dsimp only at hb hst
      subst hb
      rw [scanAvailable, if_neg (show ¬tried.contains a = true by simp [hm]),
        hH, List.find?_cons,
        show (!tried.contains a) = true by simp [hm]]
      dsimp only
      exact ⟨by simp, by simpa using hst⟩

/-- Under a fully available store, endpoint selection is exactly "first
untried index in the order `[startIndex, N)` then `[0, startIndex)`". -/
theorem pickIndex_of_avail (times : Clock) (startIndex : Nat)
    (tried : List Nat) (s : St)
    (hall : ∀ i j t, isAvailable (getHealth s.store i j) t = true) :
    (pickIndex times startIndex tried s).1 =
      (idxsFrom startIndex ++ idxsBefore startIndex).find?
        (fun i => !tried.contains i) := by
  obtain ⟨hc1, hs1⟩ := scanAvailable_of_avail times tried (idxsFrom startIndex) s hall
  have hall1 : ∀ i j t, isAvailable
      (getHealth ((scanAvailable times tried (idxsFrom startIndex) s).2).store i j)
      t = true := by
    rw [hs1]; exact hall
  obtain ⟨hc2, _⟩ := scanAvailable_of_avail times tried (idxsBefore startIndex) _ hall1
  rw [List.find?_append]
  unfold pickIndex
  cases hf1 : (idxsFrom startIndex).find? (fun i => !tried.contains i) with
  | some a =>
    rw [hf1] at hc1
    rw [show scanAvailable times tried (idxsFrom startIndex) s =
        (some a, (scanAvailable times tried (idxsFrom startIndex) s).2) from by
      rw [← hc1]]
    rfl
  | none =>
    rw [hf1] at hc1
    rw [show scanAvailable times tried (idxsFrom startIndex) s =
        (none, (scanAvailable times tried (idxsFrom startIndex) s).2) from by
      rw [← hc1]]
    dsimp only
    by_cases hs0 : 0 < startIndex
    · rw [if_pos hs0]
      cases hf2 : (idxsBefore startIndex).find? (fun i => !tried.contains i) with
      | some b =>
        rw [hf2] at hc2
        rw [show scanAvailable times tried (idxsBefore startIndex)
            ((scanAvailable times tried (idxsFrom startIndex) s).2) =
            (some b, (scanAvailable times tried (idxsBefore startIndex)
              ((scanAvailable times tried (idxsFrom startIndex) s).2)).2) from by
          rw [← hc2]]
        rfl
      | none =>
        rw [hf2] at hc2
        rw [show scanAvailable times tried (idxsBefore startIndex)
            ((scanAvailable times tried (idxsFrom startIndex) s).2) =
            (none, (scanAvailable times tried (idxsBefore startIndex)
              ((scanAvailable times tried (idxsFrom startIndex) s).2)).2) from by
          rw [← hc2]]
        dsimp only
        rw [show scanAny tried (idxsFrom startIndex) = none from hf1]
        dsimp only
        rw [if_pos hs0, show scanAny tried (idxsBefore startIndex) = none from hf2]
        rfl
    · rw [if_neg hs0]
      dsimp only
      rw [show scanAny tried (idxsFrom startIndex) = none from hf1]
      dsimp only
      rw [if_neg hs0]
      have h0 : startIndex = 0 := by omega
      subst h0
      rfl

/-- The first attempt of the source loop targets the first source of the
given list. -/
theorem trySources_head (times : Clock) (transport : Transport) (i j : Nat)
    (rest : List Nat) (s : St) :
    ((trySources times transport i (j :: rest) s).2.1).head? = some (i, j) := by
  simp only [trySources]
  cases htr : transport i j with
  | resp status =>
    dsimp only
    by_cases hlt : status < 400
    · rw [if_pos hlt]
      rfl
    · rw [if_neg hlt]
      rfl
  | thrown => rfl

/-- Under a fully available store, the first transport attempt of a request
targets the computed start endpoint through source 0. -/
theorem tryEndpoints_first_attempt (times : Clock) (transport : Transport)
    (preferred : Option String) (s : St)
    (hall : ∀ i j t, isAvailable (getHealth s.store i j) t = true)
    (hk : computeStartIndex preferred < numEndpoints) :
    (flatAttempts (tryEndpoints times transport preferred s)).head? =
      some (computeStartIndex preferred, 0) := by
  have hpick1 : (pickIndex times (computeStartIndex preferred) [] s).1 =
      some (computeStartIndex preferred) := by
    rw [pickIndex_of_avail times (computeStartIndex preferred) [] s hall]
    have hsplit : idxsFrom (computeStartIndex preferred) =
        computeStartIndex preferred ::
          List.range' (computeStartIndex preferred + 1)
            (numEndpoints - computeStartIndex preferred - 1) := by
      rw [idxsFrom, show numEndpoints - computeStartIndex preferred =
        (numEndpoints - computeStartIndex preferred - 1) + 1 by omega]
      rfl
    rw [hsplit]
    rfl
  have hpick : pickIndex times (computeStartIndex preferred) [] s =
      (some (computeStartIndex preferred),
        (pickIndex times (computeStartIndex preferred) [] s).2) := by
    rw [← hpick1]
  rw [tryEndpoints]
  rw [show ENDPOINTS.length = 4 + 1 from rfl]
  rw [tryLoop, hpick]
  dsimp only
  rcases htS : trySources times transport (computeStartIndex preferred)
      (List.range numSources)
      ((pickIndex times (computeStartIndex preferred) [] s).2)
    with ⟨r, as, os, s''⟩
  have hhead : as.head? = some (computeStartIndex preferred, 0) := by
    have hth := trySources_head times transport (computeStartIndex preferred) 0 [1]
      ((pickIndex times (computeStartIndex preferred) [] s).2)
    rw [show ((0 : Nat) :: [1]) = List.range numSources from rfl, htS] at hth
    exact hth
  cases as with
  | nil => simp at hhead
  | cons a as' =>
    simp only [List.head?_cons, Option.some.injEq] at hhead
    cases r with
    | some v =>
      obtain ⟨status, j⟩ := v
      simp [flatAttempts, hhead]
    | none =>
      simp [flatAttempts, hhead]

/-- C4. With every health record available, routing starts at the preferred
endpoint: when a preferred endpoint `E` from the endpoint list is supplied,
the first transport attempt targets `E` (at its priority index) through
source 0; with no preferred endpoint it targets priority index 0; and the
endpoint-selection scan walks exactly the order `[startIndex, N)` followed
by `[0, startIndex)`. -/
theorem c4_preferred_endpoint_first (times : Clock) (transport : Transport) :
    (∀ (s : St) (E : String), E ∈ ENDPOINTS →
      (∀ i j t, isAvailable (getHealth s.store i j) t = true) →
      (flatAttempts (tryEndpoints times transport (some E) s)).head? =
        some (computeStartIndex (some E), 0) ∧
      ENDPOINTS[computeStartIndex (some E)]? = some E) ∧
    (∀ s : St, (∀ i j t, isAvailable (getHealth s.store i j) t = true) →
      (flatAttempts (tryEndpoints times transport none s)).head? = some (0, 0)) ∧
    (∀ (startIndex : Nat) (tried : List Nat) (s : St),
      (∀ i j t, isAvailable (getHealth s.store i j) t = true) →
      (pickIndex times startIndex tried s).1 =
        (idxsFrom startIndex ++ idxsBefore startIndex).find?
          (fun i => !tried.contains i)) := by
  have hconc : ∀ E ∈ ENDPOINTS,
      ENDPOINTS[computeStartIndex (some E)]? = some E ∧
      computeStartIndex (some E) < numEndpoints := by decide
  refine ⟨?_, ?_, ?_⟩
  · intro s E hE hall
    exact ⟨tryEndpoints_first_attempt times transport (some E) s hall
      (hconc E hE).2, (hconc E hE).1⟩
  · intro s hall
    exact tryEndpoints_first_attempt times transport none s hall (by decide)
  · intro startIndex tried s hall
    exact pickIndex_of_avail times startIndex tried s hall

/-- Witness for C4 at concrete inputs: preferring `/claude/ultra` (priority
index 2) on a fresh store makes the first attempt `(2, 0)`; with no
preference it is `(0, 0)`. -/
theorem c4_preferred_endpoint_first_witness :
    ((flatAttempts (tryEndpoints constClock failAllTransport
        (some "/claude/ultra") emptySt)).head? =
      some (computeStartIndex (some "/claude/ultra"), 0) ∧
    ENDPOINTS[computeStartIndex (some "/claude/ultra")]? = some "/claude/ultra") ∧
    (flatAttempts (tryEndpoints constClock failAllTransport none emptySt)).head? =
      some (0, 0) :=
  ⟨(c4_preferred_endpoint_first constClock failAllTransport).1 emptySt
      "/claude/ultra" (by decide) (fun i j t => rfl),
   (c4_preferred_endpoint_first constClock failAllTransport).2.1 emptySt
      (fun i j t => rfl)⟩

/-- The success/failure accounting of the outer loop: a successful result
ends the run at the successful attempt, with a recorded success for exactly
that key and a recorded failure for each earlier attempt; a failed run
records a failure for every attempt, and every attempt failed. -/
theorem tryLoop_result_spec (times : Clock) (transport : Transport)
    (startIndex : Nat) :
    ∀ (fuel : Nat) (tried : List Nat) (s : St),
      (∀ status i j,
        (tryLoop times transport startIndex fuel tried s).result = .ok status i j →
        status < 400 ∧ transport i j = .resp status ∧
        (flatAttempts (tryLoop times transport startIndex fuel tried s)).getLast? =
          some (i, j) ∧
        (tryLoop times transport startIndex fuel tried s).ops =
          (flatAttempts (tryLoop times transport startIndex fuel tried s)).dropLast.map
            (fun a => HOp.fail a.1 a.2) ++ [HOp.succ i j] ∧
        ∀ a ∈ (flatAttempts (tryLoop times transport startIndex fuel tried s)).dropLast,
          transportFails transport a.1 a.2 = true) ∧
      ((tryLoop times transport startIndex fuel tried s).result = .allFailed →
        (tryLoop times transport startIndex fuel tried s).ops =
          (flatAttempts (tryLoop times transport startIndex fuel tried s)).map
            (fun a => HOp.fail a.1 a.2) ∧
        ∀ a ∈ flatAttempts (tryLoop times transport startIndex fuel tried s),
          transportFails transport a.1 a.2 = true) := by
  intro fuel
  induction fuel with
  | zero =>
    intro tried s
    constructor
    · intro status i j h
      simp [tryLoop] at h
    · intro _
      exact ⟨by simp [tryLoop, flatAttempts], by simp [tryLoop, flatAttempts]⟩
  | succ fuel ih =>
    intro tried s
    rcases hp : pickIndex times startIndex tried s with ⟨c, s'⟩
    cases c with
    | none =>
      constructor
      · intro status i j h
        simp [tryLoop, hp] at h
      · intro _
        exact ⟨by simp [tryLoop, hp, flatAttempts], by simp [tryLoop, hp, flatAttempts]⟩
    | some i =>
      rcases htS : trySources times transport i (List.range numSources) s'
        with ⟨r, as, os, s''⟩
      cases r with
      | some v =>
        obtain ⟨status0, j0⟩ := v
        obtain ⟨h1, h2, h3, h4, h5⟩ := trySources_some _ _ _ _ _ _ _ _ _ _ htS
        constructor
        · intro status i' j' h
          simp only [tryLoop, hp, htS] at h
          injection h with e1 e2 e3
          subst e1; subst e2; subst e3
          refine ⟨h1, h2, ?_, ?_, ?_⟩
          · simpa [tryLoop, hp, htS, flatAttempts] using h3
          · simpa [tryLoop, hp, htS, flatAttempts] using h4
          · intro a ha
            apply h5
            simpa [tryLoop, hp, htS, flatAttempts] using ha
        · intro h
          simp [tryLoop, hp, htS] at h
      | none =>
        obtain ⟨has, hos, hfall⟩ := trySources_none _ _ _ _ _ _ _ _ htS
        have hosas : os = as.map (fun a => HOp.fail a.1 a.2) := by
          rw [has, hos, List.map_map]
          rfl
        have hasfail : ∀ a ∈ as, transportFails transport a.1 a.2 = true := by
          intro a ha
          rw [has] at ha
          obtain ⟨j, hj, rfl⟩ := List.mem_map.mp ha
          exact hfall j hj
        obtain ⟨ih1, ih2⟩ := ih (tried ++ [i]) s''
        have hflat : flatAttempts (tryLoop times transport startIndex (fuel + 1) tried s) =
            as ++ flatAttempts (tryLoop times transport startIndex fuel (tried ++ [i]) s'') := by
          simp [tryLoop, hp, htS, flatAttempts]
        have hops : (tryLoop times transport startIndex (fuel + 1) tried s).ops =
            os ++ (tryLoop times transport startIndex fuel (tried ++ [i]) s'').ops := by
          simp [tryLoop, hp, htS]
        have hres : (tryLoop times transport startIndex (fuel + 1) tried s).result =
            (tryLoop times transport startIndex fuel (tried ++ [i]) s'').result := by
          simp [tryLoop, hp, htS]
        constructor
        · intro status i' j' h
          rw [hres] at h
          obtain ⟨r1, r2, r3, r4, r5⟩ := ih1 status i' j' h
          have hrne : flatAttempts (tryLoop times transport startIndex fuel (tried ++ [i]) s'') ≠ [] := by
            intro he
            rw [he] at r3
            simp at r3
          refine ⟨r1, r2, ?_, ?_, ?_⟩
          · rw [hflat, List.getLast?_append_of_ne_nil _ hrne]
            exact r3
          · rw [hops, hflat, List.dropLast_append_of_ne_nil _ hrne,
              List.map_append, hosas, r4, List.append_assoc]
          · intro a ha
            rw [hflat, List.dropLast_append_of_ne_nil _ hrne] at ha
            rcases List.mem_append.mp ha with hmem | hmem
            · exact hasfail a hmem
            · exact r5 a hmem
        · intro h
          rw [hres] at h
          obtain ⟨r1, r2⟩ := ih2 h
          constructor
          · rw [hops, hflat, List.map_append, hosas, r1]
          · intro a ha
            rw [hflat] at ha
            rcases List.mem_append.mp ha with hmem | hmem
            · exact hasfail a hmem
            · exact r2 a hmem

/-- C5. For any run of the router: if the overall result is a success with
status `status` from `(i, j)`, then `status < 400`, the transport produced
exactly that response for that pair, the successful attempt is the last
attempt of the request (no further source or endpoint is tried), a success
is recorded for exactly that key, and every earlier attempt failed and had a
failure recorded; if the overall result is total failure, a failure was
recorded for every attempt and every attempt failed. -/
theorem c5_success_failure_accounting (times : Clock) (transport : Transport)
    (preferred : Option String) (s : St) :
    (∀ status i j,
      (tryEndpoints times transport preferred s).result = .ok status i j →
      status < 400 ∧ transport i j = .resp status ∧
      (flatAttempts (tryEndpoints times transport preferred s)).getLast? = some (i, j) ∧
      (tryEndpoints times transport preferred s).ops =
        (flatAttempts (tryEndpoints times transport preferred s)).dropLast.map
          (fun a => HOp.fail a.1 a.2) ++ [HOp.succ i j] ∧
      ∀ a ∈ (flatAttempts (tryEndpoints times transport preferred s)).dropLast,
        transportFails transport a.1 a.2 = true) ∧
    ((tryEndpoints times transport preferred s).result = .allFailed →
      (tryEndpoints times transport preferred s).ops =
        (flatAttempts (tryEndpoints times transport preferred s)).map
          (fun a => HOp.fail a.1 a.2) ∧
      ∀ a ∈ flatAttempts (tryEndpoints times transport preferred s),
        transportFails transport a.1 a.2 = true) :=
  tryLoop_result_spec times transport (computeStartIndex preferred)
    ENDPOINTS.length [] s

/-- Witness for C5 on a concrete run: the success on `(0, 1)` is the last
attempt, records one success after one failure, and the earlier attempt
failed. -/
theorem c5_success_failure_accounting_witness :
    (200 : Nat) < 400 ∧ backupOkTransport 0 1 = .resp 200 ∧
    (flatAttempts (tryEndpoints constClock backupOkTransport none emptySt)).getLast? =
      some (0, 1) ∧
    (tryEndpoints constClock backupOkTransport none emptySt).ops =
      (flatAttempts (tryEndpoints constClock backupOkTransport none emptySt)).dropLast.map
        (fun a => HOp.fail a.1 a.2) ++ [HOp.succ 0 1] ∧
    ∀ a ∈ (flatAttempts (tryEndpoints constClock backupOkTransport none emptySt)).dropLast,
      transportFails backupOkTransport a.1 a.2 = true :=
  (c5_success_failure_accounting constClock backupOkTransport none emptySt).1
    200 0 1 (by decide)

/-- C6. Translating the compat request
`{model:"m", messages:[{role:"system",content:"S"},{role:"user",content:"U"}], max_tokens:10}`
yields exactly the native object with fields `model:"m"`, `max_tokens:10`,
`system:"S"`, `messages:[{role:"user",content:"U"}]`, `stream:false` — equal
as a JSON object (fields up to order) to the claimed result, with every
remaining field passing the validity sweep (no null, placeholder, or empty
array/object value survives). -/
theorem c6_request_translation :
    convertOpenAIToClaude (.obj
      [("model", .str "m"),
       ("messages", .arr
         [.obj [("role", .str "system"), ("content", .str "S")],
          .obj [("role", .str "user"), ("content", .str "U")]]),
       ("max_tokens", .num 10)]) = .ok
      [("model", .str "m"), ("max_tokens", .num 10),
       ("messages", .arr [.obj [("role", .str "user"), ("content", .str "U")]]),
       ("system", .str "S"), ("stream", .bool false)] ∧
    ([("model", JValue.str "m"), ("max_tokens", JValue.num 10),
      ("messages", JValue.arr [.obj [("role", .str "user"), ("content", .str "U")]]),
      ("system", JValue.str "S"), ("stream", JValue.bool false)]).Perm
      [("model", JValue.str "m"), ("max_tokens", JValue.num 10),
       ("system", JValue.str "S"),
       ("messages", JValue.arr [.obj [("role", .str "user"), ("content", .str "U")]]),
       ("stream", JValue.bool false)] ∧
    ([("model", JValue.str "m"), ("max_tokens", JValue.num 10),
      ("messages", JValue.arr [.obj [("role", .str "user"), ("content", .str "U")]]),
      ("system", JValue.str "S"), ("stream", JValue.bool false)]).all
      (fun kv => isValidValue kv.2) = true :=
  ⟨rfl, List.Perm.cons _ (List.Perm.cons _ (List.Perm.swap _ _ _)), rfl⟩

/-- C9. For every compat-dialect POST whose body fails to parse or convert
(the translation step throws), the handler returns the 400 invalid-request
response immediately: zero transport attempts are made and the health store
is unchanged. -/
theorem c9_translation_failure (times : Clock) (transport : Transport)
    (preferred : Option String) (s : St) (parsedBody : Except Unit JValue)
    (hthrow : translateRequest parsedBody = .error ()) :
    handleFetch times transport true "POST" preferred parsedBody s =
      ⟨400, .invalidRequest, [], s.store⟩ := by
  simp [handleFetch, hthrow]

/-- Witness for C9: a body that parses to JSON `null` makes the translation
step throw (reading `.model` of `null`), and the concrete handler run
returns 400 with no attempts and an untouched store. -/
theorem c9_translation_failure_witness :
    handleFetch constClock failAllTransport true "POST" none
      (.ok JValue.null) emptySt =
      ⟨400, .invalidRequest, [], emptySt.store⟩ :=
  c9_translation_failure constClock failAllTransport none emptySt
    (.ok JValue.null) rfl

/-- C7. Feeding the transcoder the native sequence `message_start`,
`content_block_delta(text_delta,"Hi")`, `message_delta(stop_reason="end_turn")`,
`message_stop` — each as one complete `data: ` line, for any host JSON
parser that parses those payloads to those events — produces exactly four
events in order: the role-opening chunk with `delta={role:"assistant",content:""}`
and null finish reason, the content chunk with `delta={content:"Hi"}` and
null finish reason, the finish chunk with empty delta and
`finish_reason:"stop"`, and the done sentinel, whose serialized form is the
literal `"data: [DONE]\n\n"` — and nothing else. -/
theorem c7_stream_transcoding (parse : String → Option ClaudeEvent)
    (t1 t2 t3 t4 : Int)
    (h1 : parse msgStartJson = some (.messageStart
      ⟨some "msg_1", some "claude-3-5-sonnet-20241022"⟩))
    (h2 : parse hiDeltaJson = some (.contentBlockDelta
      (some "text_delta") (some "Hi")))
    (h3 : parse stopReasonJson = some (.messageDelta (some "end_turn")))
    (h4 : parse msgStopJson = some .messageStop) :
    convertClaudeStreamToOpenAI parse (some "m")
      [(t1, "data: " ++ msgStartJson ++ "\n"),
       (t2, "data: " ++ hiDeltaJson ++ "\n"),
       (t3, "data: " ++ stopReasonJson ++ "\n"),
       (t4, "data: " ++ msgStopJson ++ "\n")] =
      [.chunk ⟨"msg_1", t1 / 1000, "m", some "assistant", some "", none⟩,
       .chunk ⟨"chatcmpl-" ++ toString t2, t2 / 1000, "m", none, some "Hi", none⟩,
       .chunk ⟨"chatcmpl-" ++ toString t3, t3 / 1000, "m", none, none, some "stop"⟩,
       .doneSentinel] ∧
    doneSentinelString = "data: " ++ "[DONE]" ++ "\n\n" := by
  constructor
  · have p1 : processLine parse (some "m") t1 ("data: " ++ msgStartJson) =
        [.chunk ⟨"msg_1", t1 / 1000, "m", some "assistant", some "", none⟩] := by
      rw [processLine, if_neg (by decide), if_neg (by decide), if_pos (by decide),
        show jsDrop ("data: " ++ msgStartJson) 6 = msgStartJson from by decide,
        if_neg (by decide), h1]
      simp [handleEvent, strTruthy]
    have p2 : processLine parse (some "m") t2 ("data: " ++ hiDeltaJson) =
        [.chunk ⟨"chatcmpl-" ++ toString t2, t2 / 1000, "m", none, some "Hi", none⟩] := by
      rw [processLine, if_neg (by decide), if_neg (by decide), if_pos (by decide),
        show jsDrop ("data: " ++ hiDeltaJson) 6 = hiDeltaJson from by decide,
        if_neg (by decide), h2]
      simp [handleEvent, strTruthy]
    have p3 : processLine parse (some "m") t3 ("data: " ++ stopReasonJson) =
        [.chunk ⟨"chatcmpl-" ++ toString t3, t3 / 1000, "m", none, none, some "stop"⟩] := by
      rw [processLine, if_neg (by decide), if_neg (by decide), if_pos (by decide),
        show jsDrop ("data: " ++ stopReasonJson) 6 = stopReasonJson from by decide,
        if_neg (by decide), h3]
      simp [handleEvent, strTruthy, mapStopReason]
    have p4 : processLine parse (some "m") t4 ("data: " ++ msgStopJson) =
        [.doneSentinel] := by
      rw [processLine, if_neg (by decide), if_neg (by decide), if_pos (by decide),
        show jsDrop ("data: " ++ msgStopJson) 6 = msgStopJson from by decide,
        if_neg (by decide), h4]
      rfl
    rw [convertClaudeStreamToOpenAI]
    simp only [processChunks]
    rw [show splitBuffer "" ("data: " ++ msgStartJson ++ "\n") =
        (["data: " ++ msgStartJson], "") from by decide]
    simp only
    rw [show splitBuffer "" ("data: " ++ hiDeltaJson ++ "\n") =
        (["data: " ++ hiDeltaJson], "") from by decide]
    simp only
    rw [show splitBuffer "" ("data: " ++ stopReasonJson ++ "\n") =
        (["data: " ++ stopReasonJson], "") from by decide]
    simp only
    rw [show splitBuffer "" ("data: " ++ msgStopJson ++ "\n") =
        (["data: " ++ msgStopJson], "") from by decide]
    simp only [List.flatMap_cons, List.flatMap_nil, p1, p2, p3, p4]
    simp
  · decide

/-- Witness for C7: the scenario run with the concrete parser at times
0, 1, 2, 3. -/
theorem c7_stream_transcoding_witness :
    convertClaudeStreamToOpenAI demoParse (some "m")
      [(0, "data: " ++ msgStartJson ++ "\n"),
       (1, "data: " ++ hiDeltaJson ++ "\n"),
       (2, "data: " ++ stopReasonJson ++ "\n"),
       (3, "data: " ++ msgStopJson ++ "\n")] =
      [.chunk ⟨"msg_1", 0 / 1000, "m", some "assistant", some "", none⟩,
       .chunk ⟨"chatcmpl-" ++ toString (1 : Int), 1 / 1000, "m", none, some "Hi", none⟩,
       .chunk ⟨"chatcmpl-" ++ toString (2 : Int), 2 / 1000, "m", none, none, some "stop"⟩,
       .doneSentinel] ∧
    doneSentinelString = "data: " ++ "[DONE]" ++ "\n\n" :=
  c7_stream_transcoding demoParse 0 1 2 3 (by decide) (by decide) (by decide)
    (by decide)

/-- C8 counterexample: processing `message_stop` and then a further
`content_block_delta("X")` emits the done sentinel followed by a content
chunk carrying `"X"` — the transcoder does relay content after
`message_stop`, contradicting the claim at this concrete input. -/
theorem c8_counterexample :
    convertClaudeStreamToOpenAI demoParse (some "m")
      [(0, "data: " ++ msgStopJson ++ "\n"),
       (0, "data: " ++ xDeltaJson ++ "\n")] =
      [.doneSentinel,
       .chunk ⟨"chatcmpl-" ++ toString (0 : Int), 0 / 1000, "m", none,
         some "X", none⟩] := by
  decide

/-- C8 amended: processing a `message_stop` line emits exactly the literal
done sentinel, but the transcoder is not terminal — per-line processing is
stateless, so the output of a concatenated input is the concatenation of the
outputs, and events arriving after `message_stop` (including further
`content_block_delta` events, as the counterexample shows) are still
transcoded and emitted. -/
theorem c8_message_stop_not_terminal (parse : String → Option ClaudeEvent)
    (originalModel : Option String) :
    (∀ now : Int, parse msgStopJson = some .messageStop →
      processLine parse originalModel now ("data: " ++ msgStopJson) =
        [.doneSentinel]) ∧
    (∀ (A B : List (Int × String)) (buffer : String),
      processChunks parse originalModel (A ++ B) buffer =
        processChunks parse originalModel A buffer ++
        processChunks parse originalModel B (finalBuffer A buffer)) := by
  constructor
  · intro now hstop
    rw [processLine, if_neg (by decide), if_neg (by decide), if_pos (by decide),
      show jsDrop ("data: " ++ msgStopJson) 6 = msgStopJson from by decide,
      if_neg (by decide), hstop]
    rfl
  · intro A
    induction A with
    | nil => intro B buffer; rfl
    | cons hd A' ih =>
      intro B buffer
      obtain ⟨t, c⟩ := hd
      simp only [List.cons_append, processChunks, finalBuffer, ih,
        List.append_assoc]
      exact congrArg
        (fun x => (splitBuffer buffer c).1.flatMap
          (processLine parse originalModel t) ++ x)
        (ih B (splitBuffer buffer c).2)

/-- Witness for the amended C8: the concrete parser run — the stop line
alone emits the sentinel, and splitting the counterexample input at the
stop line decomposes its output. -/
theorem c8_message_stop_not_terminal_witness :
    processLine demoParse (some "m") 0 ("data: " ++ msgStopJson) =
      [.doneSentinel] ∧
    processChunks demoParse (some "m")
      ([(0, "data: " ++ msgStopJson ++ "\n")] ++
        [(0, "data: " ++ xDeltaJson ++ "\n")]) "" =
      processChunks demoParse (some "m")
        [(0, "data: " ++ msgStopJson ++ "\n")] "" ++
      processChunks demoParse (some "m")
        [(0, "data: " ++ xDeltaJson ++ "\n")]
        (finalBuffer [(0, "data: " ++ msgStopJson ++ "\n")] "") :=
  ⟨(c8_message_stop_not_terminal demoParse (some "m")).1 0 (by decide),
   (c8_message_stop_not_terminal demoParse (some "m")).2
     [(0, "data: " ++ msgStopJson ++ "\n")]
     [(0, "data: " ++ xDeltaJson ++ "\n")] ""⟩

